import Mathlib

/-!
Shallow embedding of `src/lp_data/HighsLp.cpp` (HiGHS problem-model core).

Machine doubles are modelled over the rationals `ℚ`; `HighsInt` counts and
indices are modelled as `Nat` (loops run from `0` to a count), and hash-map
values as `Int` (the duplicate sentinel is a reserved negative value).
`std::vector` is modelled by `List`, `std::unordered_map<std::string, HighsInt>`
by an association list `List (String × Int)` accessed only through
find/emplace/erase/insert/clear, which the association-list operations mirror.
Components of the repository that are not part of `HighsLp.cpp`
(`HighsSparseMatrix`, the `kHashIsDuplicate` constant) are modelled from the
specification and carry a doc comment saying so.
-/

inductive HighsVarType where
  | kContinuous
  | kInteger
  | kSemiContinuous
  | kSemiInteger
deriving DecidableEq

inductive ObjSense where
  | kMinimize
  | kMaximize
deriving DecidableEq

structure HighsScale where
  strategy : Int
  has_scaling : Bool
  num_col : Nat
  num_row : Nat
  cost : ℚ
  col : List ℚ
  row : List ℚ
deriving DecidableEq

/-- Modelled from the spec: the constraint-matrix component
(`HighsSparseMatrix`, outside `src/`) stores the sparse constraint matrix; per
§6 it exposes value equality, exact resizing and `applyScale`/`unapplyScale`
performing the per-entry multiply by `rowFactor[i] / colFactor[j]` (or its
inverse).  Entries are `(row, col, value)` triples. -/
structure HighsSparseMatrix where
  num_col : Nat
  num_row : Nat
  entries : List (Nat × Nat × ℚ)
deriving DecidableEq

structure HighsNameHash where
  name2index : List (String × Int)
deriving DecidableEq

structure HighsLpMods where
  save_non_semi_variable_index : List Nat
  save_inconsistent_semi_variable_index : List Nat
  save_inconsistent_semi_variable_lower_bound_value : List ℚ
  save_inconsistent_semi_variable_upper_bound_value : List ℚ
  save_inconsistent_semi_variable_type : List HighsVarType
  save_relaxed_semi_variable_lower_bound_index : List Nat
  save_relaxed_semi_variable_lower_bound_value : List ℚ
  save_tightened_semi_variable_upper_bound_index : List Nat
  save_tightened_semi_variable_upper_bound_value : List ℚ
deriving DecidableEq

structure HighsLp where
  num_col_ : Nat
  num_row_ : Nat
  col_cost_ : List ℚ
  col_lower_ : List ℚ
  col_upper_ : List ℚ
  row_lower_ : List ℚ
  row_upper_ : List ℚ
  a_matrix_ : HighsSparseMatrix
  sense_ : ObjSense
  offset_ : ℚ
  model_name_ : String
  objective_name_ : String
  new_col_name_ix_ : Nat
  new_row_name_ix_ : Nat
  col_names_ : List String
  row_names_ : List String
  integrality_ : List HighsVarType
  col_hash_ : HighsNameHash
  row_hash_ : HighsNameHash
  scale_ : HighsScale
  is_scaled_ : Bool
  is_moved_ : Bool
  cost_row_location_ : Int
  mods_ : HighsLpMods
deriving DecidableEq

/-- `HighsLp::isMip` (HighsLp.cpp:20-28): some integrality entry differs from
continuous; `false` when the integrality vector is empty (asserted to have
length `num_col_` otherwise). -/
def HighsLp.isMip (lp : HighsLp) : Bool :=
  if lp.integrality_.length ≠ 0 then
    (List.range lp.num_col_).any fun iCol =>
      decide (lp.integrality_.getD iCol HighsVarType.kContinuous ≠ HighsVarType.kContinuous)
  else false

/-- `HighsLp::hasSemiVariables` (HighsLp.cpp:30-40). -/
def HighsLp.hasSemiVariables (lp : HighsLp) : Bool :=
  if lp.integrality_.length ≠ 0 then
    (List.range lp.num_col_).any fun iCol =>
      decide (lp.integrality_.getD iCol HighsVarType.kContinuous = HighsVarType.kSemiContinuous ∨
        lp.integrality_.getD iCol HighsVarType.kContinuous = HighsVarType.kSemiInteger)
  else false

/-- `HighsLp::equalButForNames` (HighsLp.cpp:56-79).  The `a_matrix_` line
assigns (not `&&`-accumulates) the comparison, exactly as in the source. -/
def HighsLp.equalButForNames (a b : HighsLp) : Bool :=
  let equal := true
  let equal := decide (a.num_col_ = b.num_col_) && equal
  let equal := decide (a.num_row_ = b.num_row_) && equal
  let equal := decide (a.sense_ = b.sense_) && equal
  let equal := decide (a.offset_ = b.offset_) && equal
  let equal := decide (a.model_name_ = b.model_name_) && equal
  let equal := decide (a.col_cost_ = b.col_cost_) && equal
  let equal := decide (a.col_upper_ = b.col_upper_) && equal
  let equal := decide (a.col_lower_ = b.col_lower_) && equal
  let equal := decide (a.row_upper_ = b.row_upper_) && equal
  let equal := decide (a.row_lower_ = b.row_lower_) && equal
  let equal := decide (a.a_matrix_ = b.a_matrix_)
  let equal := decide (a.scale_.strategy = b.scale_.strategy) && equal
  let equal := decide (a.scale_.has_scaling = b.scale_.has_scaling) && equal
  let equal := decide (a.scale_.num_col = b.scale_.num_col) && equal
  let equal := decide (a.scale_.num_row = b.scale_.num_row) && equal
  let equal := decide (a.scale_.cost = b.scale_.cost) && equal
  let equal := decide (a.scale_.col = b.scale_.col) && equal
  let equal := decide (a.scale_.row = b.scale_.row) && equal
  equal

/-- `HighsLp::equalNames` (HighsLp.cpp:48-54). -/
def HighsLp.equalNames (a b : HighsLp) : Bool :=
  let equal := true
  let equal := decide (a.objective_name_ = b.objective_name_) && equal
  let equal := decide (a.row_names_ = b.row_names_) && equal
  let equal := decide (a.col_names_ = b.col_names_) && equal
  equal

/-- `HighsLp::operator==` (HighsLp.cpp:42-46). -/
def HighsLp.eq (a b : HighsLp) : Bool :=
  let equal := a.equalButForNames b
  let equal := a.equalNames b && equal
  equal

/-- `HighsLpMods::isClear` (HighsLp.cpp:403-416).  The relaxed-lower *value*
log is tested twice and the relaxed-lower *index* log never, exactly as in the
source. -/
def HighsLpMods.isClear (m : HighsLpMods) : Bool :=
  if m.save_non_semi_variable_index.length ≠ 0 then false else
  if m.save_inconsistent_semi_variable_index.length ≠ 0 then false else
  if m.save_inconsistent_semi_variable_lower_bound_value.length ≠ 0 then false else
  if m.save_inconsistent_semi_variable_upper_bound_value.length ≠ 0 then false else
  if m.save_inconsistent_semi_variable_type.length ≠ 0 then false else
  if m.save_relaxed_semi_variable_lower_bound_value.length ≠ 0 then false else
  if m.save_relaxed_semi_variable_lower_bound_value.length ≠ 0 then false else
  if m.save_tightened_semi_variable_upper_bound_index.length ≠ 0 then false else
  if m.save_tightened_semi_variable_upper_bound_value.length ≠ 0 then false else
  true

def emptyMods : HighsLpMods :=
  ⟨[], [], [], [], [], [], [], [], []⟩

/-- `HighsLpMods::clear` (HighsLp.cpp:391-401). -/
def HighsLpMods.clear (_m : HighsLpMods) : HighsLpMods := emptyMods

/-- A baseline empty model, matching the creation-time defaults of `HighsLp`
(the state produced by `HighsLp::clear`, HighsLp.cpp:128-161). -/
def lp0 : HighsLp where
  num_col_ := 0
  num_row_ := 0
  col_cost_ := []
  col_lower_ := []
  col_upper_ := []
  row_lower_ := []
  row_upper_ := []
  a_matrix_ := ⟨0, 0, []⟩
  sense_ := ObjSense.kMinimize
  offset_ := 0
  model_name_ := ""
  objective_name_ := ""
  new_col_name_ix_ := 0
  new_row_name_ix_ := 0
  col_names_ := []
  row_names_ := []
  integrality_ := []
  col_hash_ := ⟨[]⟩
  row_hash_ := ⟨[]⟩
  scale_ := ⟨0, false, 0, 0, 0, [], []⟩
  is_scaled_ := false
  is_moved_ := false
  cost_row_location_ := -1
  mods_ := emptyMods

/- Helper lemmas about list access used throughout. -/

lemma getD_set_self {α : Type} (l : List α) (i : Nat) (a d : α) (h : i < l.length) :
    (l.set i a).getD i d = a := by
  induction l generalizing i with
  | nil => simp at h
  | cons x xs ih =>
    cases i with
    | zero => simp [List.set, List.getD]
    | succ n =>
      simp only [List.set, List.getD_cons_succ]
      exact ih n (by simpa using h)

lemma getD_set_ne {α : Type} (l : List α) (i j : Nat) (a d : α) (h : j ≠ i) :
    (l.set i a).getD j d = l.getD j d := by
  induction l generalizing i j with
  | nil => simp [List.set]
  | cons x xs ih =>
    cases i with
    | zero =>
      cases j with
      | zero => exact absurd rfl h
      | succ m => simp [List.set]
    | succ n =>
      cases j with
      | zero => simp [List.set]
      | succ m =>
        simp only [List.set, List.getD_cons_succ]
        exact ih n m (fun hc => h (by rw [hc]))

lemma exists_range_getD {α : Type} (l : List α) (d : α) (p : α → Prop) :
    (∃ i, i < l.length ∧ p (l.getD i d)) ↔ ∃ x ∈ l, p x := by
  constructor
  · rintro ⟨i, hi, hp⟩
    refine ⟨l.get ⟨i, hi⟩, List.get_mem l i hi, ?_⟩
    rwa [List.getD_eq_get?, List.get?_eq_get hi, Option.getD_some] at hp
  · rintro ⟨x, hx, hp⟩
    obtain ⟨n, hn⟩ := List.mem_iff_get.mp hx
    refine ⟨n, n.isLt, ?_⟩
    rwa [List.getD_eq_get?, List.get?_eq_get n.isLt, Option.getD_some, hn]

/-- C10: with an empty integrality vector, `isMip` and `hasSemiVariables` are
`false` whatever `num_col_` is; on a vector of length `num_col_`, `isMip` holds
iff some entry is not continuous and `hasSemiVariables` iff some entry is
semi-continuous or semi-integer. -/
theorem isMip_hasSemiVariables_spec (lp : HighsLp) :
    (lp.integrality_ = [] → lp.isMip = false ∧ lp.hasSemiVariables = false) ∧
    (lp.integrality_.length = lp.num_col_ →
      ((lp.isMip = true ↔ ∃ t ∈ lp.integrality_, t ≠ HighsVarType.kContinuous) ∧
       (lp.hasSemiVariables = true ↔ ∃ t ∈ lp.integrality_,
          t = HighsVarType.kSemiContinuous ∨ t = HighsVarType.kSemiInteger))) := by
  constructor
  · intro h
    simp [HighsLp.isMip, HighsLp.hasSemiVariables, h]
  · intro hlen
    rcases Nat.eq_zero_or_pos lp.integrality_.length with hz | hpos
    · rw [List.length_eq_zero] at hz
      simp [HighsLp.isMip, HighsLp.hasSemiVariables, hz]
    · have hne : lp.integrality_.length ≠ 0 := Nat.pos_iff_ne_zero.mp hpos
      constructor
      · rw [HighsLp.isMip, if_pos hne, List.any_eq_true]
        simp only [List.mem_range, decide_eq_true_eq]
        rw [← hlen]
        exact ⟨fun ⟨i, hi, hp⟩ => (exists_range_getD _ _ _).mp ⟨i, hi, hp⟩,
          fun h => by
            obtain ⟨i, hi, hp⟩ := (exists_range_getD lp.integrality_
              HighsVarType.kContinuous (fun t => t ≠ HighsVarType.kContinuous)).mpr h
            exact ⟨i, hi, hp⟩⟩
      · rw [HighsLp.hasSemiVariables, if_pos hne, List.any_eq_true]
        simp only [List.mem_range, decide_eq_true_eq]
        rw [← hlen]
        exact ⟨fun ⟨i, hi, hp⟩ => (exists_range_getD _ _ _).mp ⟨i, hi, hp⟩,
          fun h => by
            obtain ⟨i, hi, hp⟩ := (exists_range_getD lp.integrality_
              HighsVarType.kContinuous (fun t => t = HighsVarType.kSemiContinuous ∨
                t = HighsVarType.kSemiInteger)).mpr h
            exact ⟨i, hi, hp⟩⟩

def lpC10a : HighsLp := { lp0 with num_col_ := 2 }

def lpC10b : HighsLp :=
  { lp0 with num_col_ := 2,
             col_cost_ := [0, 0], col_lower_ := [0, 0], col_upper_ := [1, 1],
             integrality_ := [HighsVarType.kContinuous, HighsVarType.kSemiInteger] }

/-- C10 witness: concrete instantiations of `isMip_hasSemiVariables_spec`. -/
theorem isMip_hasSemiVariables_spec_w :
    (lpC10a.isMip = false ∧ lpC10a.hasSemiVariables = false) ∧
    lpC10b.isMip = true ∧ lpC10b.hasSemiVariables = true :=
  ⟨(isMip_hasSemiVariables_spec lpC10a).1 rfl,
   (((isMip_hasSemiVariables_spec lpC10b).2 (by decide)).1).mpr
     ⟨HighsVarType.kSemiInteger, by decide, by decide⟩,
   (((isMip_hasSemiVariables_spec lpC10b).2 (by decide)).2).mpr
     ⟨HighsVarType.kSemiInteger, by decide, by decide⟩⟩

def lpC1a : HighsLp :=
  { lp0 with num_col_ := 1, col_cost_ := [1], col_lower_ := [0], col_upper_ := [2] }

def lpC1b : HighsLp := { lpC1a with col_cost_ := [7] }

/-- C1: `equalButForNames` returns `true` for two models that differ in their
cost vectors (everything else equal), because the matrix-comparison line
overwrites the accumulated result instead of conjoining with it; the claimed
"false whenever any one differs" fails. -/
theorem equalButForNames_ignores_cost :
    lpC1a.equalButForNames lpC1b = true ∧ lpC1a.col_cost_ ≠ lpC1b.col_cost_ := by
  constructor
  · rfl
  · intro h
    simp [lpC1a, lpC1b, lp0] at h

def modsC2 : HighsLpMods :=
  { emptyMods with save_relaxed_semi_variable_lower_bound_index := [0] }

/-- C2: `isClear` returns `true` on a journal whose relaxed-lower *index* log
is non-empty (the duplicated check tests the value log twice and the index log
never), refuting "true only if every sequence has length zero". -/
theorem isClear_misses_relaxed_lower_index :
    modsC2.isClear = true ∧ modsC2.save_relaxed_semi_variable_lower_bound_index ≠ [] := by
  constructor
  · rfl
  · intro h
    simp [modsC2, emptyMods] at h

/- Scaling (HighsLp.cpp:178-227).  `scaleVec op n s v` models the loop
`for (i = 0; i < n; i++) v[i] = op(v[i], s[i])`: only the first `n` entries of
`v` are transformed, entry `i` with factor `s[i]` (default `0` past the end of
`s`; the callers establish `n = s.length`). -/

def scaleVec (op : ℚ → ℚ → ℚ) : Nat → List ℚ → List ℚ → List ℚ
  | _, _, [] => []
  | 0, _, v => v
  | n + 1, s, x :: v => op x (s.headD 0) :: scaleVec op n s.tail v

/-- Modelled from the spec: `HighsSparseMatrix::applyScale` (outside `src/`)
multiplies each entry by `rowFactor[i] / colFactor[j]` (§6). -/
def HighsSparseMatrix.applyScale (a : HighsSparseMatrix) (scale : HighsScale) :
    HighsSparseMatrix :=
  { a with entries := a.entries.map fun e =>
      (e.1, e.2.1, e.2.2 * scale.row.getD e.1 1 / scale.col.getD e.2.1 1) }

/-- Modelled from the spec: `HighsSparseMatrix::unapplyScale` (outside `src/`)
performs the inverse per-entry transform (§6). -/
def HighsSparseMatrix.unapplyScale (a : HighsSparseMatrix) (scale : HighsScale) :
    HighsSparseMatrix :=
  { a with entries := a.entries.map fun e =>
      (e.1, e.2.1, e.2.2 * scale.col.getD e.2.1 1 / scale.row.getD e.1 1) }

/-- `HighsLp::applyScale` (HighsLp.cpp:178-203).  The source stores
`is_scaled_ = false` before branching on `has_scaling`; on the path reaching
that store, `is_scaled_` is already false. -/
def HighsLp.applyScale (lp : HighsLp) : HighsLp :=
  if lp.is_scaled_ then lp
  else if lp.scale_.has_scaling then
    { lp with
      col_lower_ := scaleVec (fun x c => x / c) lp.num_col_ lp.scale_.col lp.col_lower_,
      col_upper_ := scaleVec (fun x c => x / c) lp.num_col_ lp.scale_.col lp.col_upper_,
      col_cost_ := scaleVec (fun x c => x * c) lp.num_col_ lp.scale_.col lp.col_cost_,
      row_lower_ := scaleVec (fun x r => x * r) lp.num_row_ lp.scale_.row lp.row_lower_,
      row_upper_ := scaleVec (fun x r => x * r) lp.num_row_ lp.scale_.row lp.row_upper_,
      a_matrix_ := lp.a_matrix_.applyScale lp.scale_,
      is_scaled_ := true }
  else { lp with is_scaled_ := false }

/-- `HighsLp::unapplyScale` (HighsLp.cpp:205-227). -/
def HighsLp.unapplyScale (lp : HighsLp) : HighsLp :=
  if lp.is_scaled_ = false then lp
  else
    { lp with
      col_lower_ := scaleVec (fun x c => x * c) lp.num_col_ lp.scale_.col lp.col_lower_,
      col_upper_ := scaleVec (fun x c => x * c) lp.num_col_ lp.scale_.col lp.col_upper_,
      col_cost_ := scaleVec (fun x c => x / c) lp.num_col_ lp.scale_.col lp.col_cost_,
      row_lower_ := scaleVec (fun x r => x / r) lp.num_row_ lp.scale_.row lp.row_lower_,
      row_upper_ := scaleVec (fun x r => x / r) lp.num_row_ lp.scale_.row lp.row_upper_,
      a_matrix_ := lp.a_matrix_.unapplyScale lp.scale_,
      is_scaled_ := false }

lemma getD_mem {α : Type} (l : List α) (i : Nat) (d : α) (h : i < l.length) :
    l.getD i d ∈ l := by
  rw [List.getD_eq_get?, List.get?_eq_get h, Option.getD_some]
  exact List.get_mem l i h

lemma scaleVec_roundtrip (f g : ℚ → ℚ → ℚ)
    (hfg : ∀ x c, c ≠ 0 → g (f x c) c = x) :
    ∀ (n : Nat) (s v : List ℚ), n ≤ s.length → (∀ q ∈ s, q ≠ 0) →
      scaleVec g n s (scaleVec f n s v) = v := by
  intro n s v
  induction v generalizing n s with
  | nil =>
    intro _ _
    cases n <;> simp [scaleVec]
  | cons x xs ih =>
    intro hn hs
    cases n with
    | zero => simp [scaleVec]
    | succ m =>
      cases s with
      | nil => simp at hn
      | cons c cs =>
        simp only [scaleVec, List.headD_cons, List.tail_cons]
        rw [hfg x c (hs c (by simp)),
          ih m cs (by simpa using hn) (fun q hq => hs q (by simp [hq]))]

lemma entries_scale_roundtrip (col row : List ℚ)
    (hc : ∀ q ∈ col, q ≠ 0) (hr : ∀ q ∈ row, q ≠ 0) :
    ∀ entries : List (Nat × Nat × ℚ),
      (∀ e ∈ entries, e.1 < row.length ∧ e.2.1 < col.length) →
      ((entries.map fun e =>
          (e.1, e.2.1, e.2.2 * row.getD e.1 1 / col.getD e.2.1 1)).map fun e =>
          (e.1, e.2.1, e.2.2 * col.getD e.2.1 1 / row.getD e.1 1)) = entries := by
  intro entries
  induction entries with
  | nil => intro _; rfl
  | cons e rest ih =>
    intro hent
    have h1 := (hent e (by simp)).1
    have h2 := (hent e (by simp)).2
    have hr0 : row.getD e.1 1 ≠ 0 := hr _ (getD_mem _ _ _ h1)
    have hc0 : col.getD e.2.1 1 ≠ 0 := hc _ (getD_mem _ _ _ h2)
    simp only [List.map_cons]
    rw [ih (fun x hx => hent x (by simp [hx]))]
    obtain ⟨i, j, v⟩ := e
    simp only at hr0 hc0 ⊢
    rw [div_mul_cancel₀ _ hc0, mul_div_cancel_right₀ _ hr0]

/-- C4: for a model with active, positive, correctly sized scaling that is not
currently applied, `unapplyScale` after `applyScale` restores every field
exactly (over `ℚ`), `is_scaled_` included. -/
theorem applyScale_unapplyScale_roundtrip (lp : HighsLp)
    (hhs : lp.scale_.has_scaling = true)
    (hns : lp.is_scaled_ = false)
    (hcl : lp.scale_.col.length = lp.num_col_)
    (hrl : lp.scale_.row.length = lp.num_row_)
    (hcpos : ∀ q ∈ lp.scale_.col, 0 < q)
    (hrpos : ∀ q ∈ lp.scale_.row, 0 < q)
    (hent : ∀ e ∈ lp.a_matrix_.entries, e.1 < lp.num_row_ ∧ e.2.1 < lp.num_col_) :
    lp.applyScale.unapplyScale = lp := by
  have hc0 : ∀ q ∈ lp.scale_.col, q ≠ 0 := fun q hq => ne_of_gt (hcpos q hq)
  have hr0 : ∀ q ∈ lp.scale_.row, q ≠ 0 := fun q hq => ne_of_gt (hrpos q hq)
  have hcl' : lp.num_col_ ≤ lp.scale_.col.length := le_of_eq hcl.symm
  have hrl' : lp.num_row_ ≤ lp.scale_.row.length := le_of_eq hrl.symm
  have hdm : ∀ v, scaleVec (fun x c => x * c) lp.num_col_ lp.scale_.col
      (scaleVec (fun x c => x / c) lp.num_col_ lp.scale_.col v) = v :=
    fun v => scaleVec_roundtrip _ _ (fun x c hc => div_mul_cancel₀ x hc) _ _ v hcl' hc0
  have hmd : ∀ v, scaleVec (fun x c => x / c) lp.num_col_ lp.scale_.col
      (scaleVec (fun x c => x * c) lp.num_col_ lp.scale_.col v) = v :=
    fun v => scaleVec_roundtrip _ _ (fun x c hc => mul_div_cancel_right₀ x hc) _ _ v hcl' hc0
  have hrmd : ∀ v, scaleVec (fun x r => x / r) lp.num_row_ lp.scale_.row
      (scaleVec (fun x r => x * r) lp.num_row_ lp.scale_.row v) = v :=
    fun v => scaleVec_roundtrip _ _ (fun x c hc => mul_div_cancel_right₀ x hc) _ _ v hrl' hr0
  have hmat : (lp.a_matrix_.applyScale lp.scale_).unapplyScale lp.scale_ = lp.a_matrix_ := by
    have hrt := entries_scale_roundtrip lp.scale_.col lp.scale_.row hc0 hr0
      lp.a_matrix_.entries
      (fun e he => ⟨hrl ▸ (hent e he).1, hcl ▸ (hent e he).2⟩)
    rw [HighsSparseMatrix.applyScale, HighsSparseMatrix.unapplyScale]
    show HighsSparseMatrix.mk lp.a_matrix_.num_col lp.a_matrix_.num_row _ = lp.a_matrix_
    rw [hrt]
  simp only [HighsLp.applyScale, HighsLp.unapplyScale, hns, hhs, if_true,
    Bool.false_eq_true, if_false]
  simp [hdm, hmd, hrmd, hmat]
  rw [← hns]

def lpC4 : HighsLp :=
  { lp0 with num_col_ := 1, num_row_ := 1,
             col_cost_ := [5], col_lower_ := [1], col_upper_ := [2],
             row_lower_ := [0], row_upper_ := [3],
             a_matrix_ := ⟨1, 1, [(0, 0, 4)]⟩,
             scale_ := ⟨1, true, 1, 1, 1, [2], [3]⟩ }

/-- C4 witness: the round trip at a concrete scaled model. -/
theorem applyScale_unapplyScale_roundtrip_w : lpC4.applyScale.unapplyScale = lpC4 :=
  applyScale_unapplyScale_roundtrip lpC4 rfl rfl rfl rfl (by decide) (by decide) (by decide)

/-- C8: under the invariant `is_scaled_ → has_scaling`, a second `applyScale`
changes nothing. -/
theorem applyScale_idempotent (lp : HighsLp)
    (hinv : lp.is_scaled_ = true → lp.scale_.has_scaling = true) :
    lp.applyScale.applyScale = lp.applyScale := by
  by_cases h1 : lp.is_scaled_ = true
  · simp [HighsLp.applyScale, h1]
  · have h1' : lp.is_scaled_ = false := by
      cases h : lp.is_scaled_
      · rfl
      · exact absurd h h1
    by_cases h2 : lp.scale_.has_scaling = true
    · simp [HighsLp.applyScale, h1', h2]
    · have h2' : lp.scale_.has_scaling = false := by
        cases h : lp.scale_.has_scaling
        · rfl
        · exact absurd h h2
      cases lp with
      | mk nc nr cc cl cu rl ru am se off mn obn ncx nrx cn rn integ ch rh sc isc ism crl mods =>
        simp only at h1' h2'
        simp [HighsLp.applyScale, h1', h2']

/-- C8 witness: idempotence at the concrete scaled model. -/
theorem applyScale_idempotent_w : lpC4.applyScale.applyScale = lpC4.applyScale :=
  applyScale_idempotent lpC4 (by decide)

/- `exactResize` (HighsLp.cpp:115-126).  `resizeD` models `std::vector::resize`:
truncate or pad with the value-initialized default. -/

def resizeD {α : Type} (l : List α) (n : Nat) (d : α) : List α :=
  l.take n ++ List.replicate (n - l.length) d

lemma length_resizeD {α : Type} (l : List α) (n : Nat) (d : α) :
    (resizeD l n d).length = n := by
  simp only [resizeD, List.length_append, List.length_take, List.length_replicate]
  omega

/-- Modelled from the spec: `HighsSparseMatrix::exactResize` (outside `src/`)
resizes the matrix to its stored dimensions; entries outside them are dropped. -/
def HighsSparseMatrix.exactResize (a : HighsSparseMatrix) : HighsSparseMatrix :=
  { a with entries := a.entries.filter fun e => decide (e.1 < a.num_row ∧ e.2.1 < a.num_col) }

/-- `HighsLp::exactResize` (HighsLp.cpp:115-126): costs and bounds are always
resized; names and integrality only when previously non-empty. -/
def HighsLp.exactResize (lp : HighsLp) : HighsLp :=
  { lp with
    col_cost_ := resizeD lp.col_cost_ lp.num_col_ 0,
    col_lower_ := resizeD lp.col_lower_ lp.num_col_ 0,
    col_upper_ := resizeD lp.col_upper_ lp.num_col_ 0,
    row_lower_ := resizeD lp.row_lower_ lp.num_row_ 0,
    row_upper_ := resizeD lp.row_upper_ lp.num_row_ 0,
    a_matrix_ := lp.a_matrix_.exactResize,
    col_names_ := if lp.col_names_.length ≠ 0 then resizeD lp.col_names_ lp.num_col_ ""
      else lp.col_names_,
    row_names_ := if lp.row_names_.length ≠ 0 then resizeD lp.row_names_ lp.num_row_ ""
      else lp.row_names_,
    integrality_ := if lp.integrality_.length ≠ 0 then
      resizeD lp.integrality_ lp.num_col_ HighsVarType.kContinuous else lp.integrality_ }

/-- C9: `exactResize` leaves an empty names/integrality sequence empty whatever
the new counts are, resizes costs and bounds to exactly the counts, and resizes
non-empty names/integrality sequences to exactly the corresponding count. -/
theorem exactResize_spec (lp : HighsLp) :
    (lp.col_names_ = [] → lp.exactResize.col_names_ = []) ∧
    (lp.row_names_ = [] → lp.exactResize.row_names_ = []) ∧
    (lp.integrality_ = [] → lp.exactResize.integrality_ = []) ∧
    lp.exactResize.col_cost_.length = lp.num_col_ ∧
    lp.exactResize.col_lower_.length = lp.num_col_ ∧
    lp.exactResize.col_upper_.length = lp.num_col_ ∧
    lp.exactResize.row_lower_.length = lp.num_row_ ∧
    lp.exactResize.row_upper_.length = lp.num_row_ ∧
    (lp.col_names_ ≠ [] → lp.exactResize.col_names_.length = lp.num_col_) ∧
    (lp.row_names_ ≠ [] → lp.exactResize.row_names_.length = lp.num_row_) ∧
    (lp.integrality_ ≠ [] → lp.exactResize.integrality_.length = lp.num_col_) := by
  refine ⟨fun h => ?_, fun h => ?_, fun h => ?_, ?_, ?_, ?_, ?_, ?_,
    fun h => ?_, fun h => ?_, fun h => ?_⟩ <;>
    simp [HighsLp.exactResize, length_resizeD, *]

def lpC9 : HighsLp := { lp0 with num_col_ := 5, num_row_ := 2, row_names_ := ["r0"] }

/-- C9 witness: a model with 5 columns, untracked column names and tracked row
names. -/
theorem exactResize_spec_w :
    lpC9.exactResize.col_names_ = [] ∧
    lpC9.exactResize.col_cost_.length = 5 ∧
    lpC9.exactResize.row_names_.length = 2 :=
  ⟨(exactResize_spec lpC9).1 rfl,
   (exactResize_spec lpC9).2.2.2.1,
   (exactResize_spec lpC9).2.2.2.2.2.2.2.2.2.1 (by decide)⟩

/- Name hash (HighsLp.cpp:418-446).  `name2index` is a `std::unordered_map`
used only through find/emplace/erase/insert/clear/size; it is modelled as an
association list with at most one entry per key, queried through
`List.lookup`. -/

/-- Modelled from the spec: the reserved sentinel index `kHashIsDuplicate`
(declared outside `src/`) marks a name mapped by two or more indices; it is a
reserved value distinct from every real (non-negative) index (§3). -/
def kHashIsDuplicate : Int := -1

/-- `HighsNameHash::clear` (HighsLp.cpp:446). -/
def HighsNameHash.clear (_h : HighsNameHash) : HighsNameHash := ⟨[]⟩

lemma lookup_cons (k : String) (v : Int) (t : List (String × Int)) (a : String) :
    ((k, v) :: t).lookup a = if a = k then some v else t.lookup a := by
  cases hba : a == k with
  | true =>
    have h : a = k := eq_of_beq hba
    simp [List.lookup, hba, h]
  | false =>
    have h : a ≠ k := ne_of_beq_false hba
    simp [List.lookup, hba, h]

lemma lookup_append_some {l1 : List (String × Int)} (l2 : List (String × Int)) {a : String}
    {v : Int} (h : l1.lookup a = some v) : (l1 ++ l2).lookup a = some v := by
  induction l1 with
  | nil => simp [List.lookup] at h
  | cons p t ih =>
    obtain ⟨k, w⟩ := p
    rw [List.cons_append, lookup_cons]
    rw [lookup_cons] at h
    by_cases hak : a = k
    · simpa [hak] using h
    · rw [if_neg hak] at h ⊢
      exact ih h

lemma lookup_append_none {l1 : List (String × Int)} (l2 : List (String × Int)) {a : String}
    (h : l1.lookup a = none) : (l1 ++ l2).lookup a = l2.lookup a := by
  induction l1 with
  | nil => simp
  | cons p t ih =>
    obtain ⟨k, w⟩ := p
    rw [lookup_cons] at h
    by_cases hak : a = k
    · simp [hak] at h
    · rw [List.cons_append, lookup_cons, if_neg hak]
      exact ih (by rwa [if_neg hak] at h)

lemma lookup_eq_none_iff (l : List (String × Int)) (a : String) :
    l.lookup a = none ↔ a ∉ l.map Prod.fst := by
  induction l with
  | nil => simp [List.lookup]
  | cons p t ih =>
    obtain ⟨k, w⟩ := p
    rw [lookup_cons]
    by_cases hak : a = k
    · simp [hak]
    · simp [hak, ih]

lemma lookup_append_single_ne (l : List (String × Int)) (k a : String) (v : Int)
    (h : a ≠ k) : (l ++ [(k, v)]).lookup a = l.lookup a := by
  cases hl : l.lookup a with
  | some w => exact lookup_append_some _ hl
  | none =>
    rw [lookup_append_none _ hl, lookup_cons, if_neg h]
    simp [List.lookup]

lemma lookup_append_single_isSome (l : List (String × Int)) (k a : String) (v : Int) :
    ((l ++ [(k, v)]).lookup a).isSome ↔ ((l.lookup a).isSome ∨ a = k) := by
  by_cases hak : a = k
  · subst hak
    cases hl : l.lookup a with
    | some w => simp [lookup_append_some _ hl]
    | none => simp [lookup_append_none _ hl, lookup_cons]
  · rw [lookup_append_single_ne _ _ _ _ hak]
    simp [hak]

/-- Loop of `HighsNameHash::hasDuplicate` (HighsLp.cpp:438-441): emplace each
name in turn, stopping at the first already-present name. -/
def hasDuplicateLoop : List (String × Int) → Int → List String → Bool
  | _, _, [] => false
  | m, idx, nm :: rest =>
    if (m.lookup nm).isSome then true
    else hasDuplicateLoop (m ++ [(nm, idx)]) (idx + 1) rest

/-- `HighsNameHash::hasDuplicate` (HighsLp.cpp:434-444): clears `name2index`,
emplaces each name until the first collision, clears again; the persisted map
after the call is therefore the cleared one. -/
def HighsNameHash.hasDuplicate (_h : HighsNameHash) (name : List String) :
    HighsNameHash × Bool :=
  (⟨[]⟩, hasDuplicateLoop [] 0 name)

lemma hasDuplicateLoop_spec : ∀ (rest : List String) (m : List (String × Int)) (idx : Int),
    hasDuplicateLoop m idx rest = true ↔
      ((∃ nm ∈ rest, (m.lookup nm).isSome) ∨ ¬ rest.Nodup) := by
  intro rest
  induction rest with
  | nil => intro m idx; simp [hasDuplicateLoop]
  | cons nm rest ih =>
    intro m idx
    rw [hasDuplicateLoop]
    by_cases hl : (m.lookup nm).isSome
    · rw [if_pos hl]
      exact ⟨fun _ => Or.inl ⟨nm, List.mem_cons_self nm rest, hl⟩, fun _ => rfl⟩
    · rw [if_neg hl, ih]
      simp only [lookup_append_single_isSome, List.nodup_cons, List.mem_cons]
      constructor
      · rintro (⟨x, hx, hsome | hxeq⟩ | hnd)
        · exact Or.inl ⟨x, Or.inr hx, hsome⟩
        · subst hxeq
          exact Or.inr fun hc => hc.1 hx
        · exact Or.inr fun hc => hnd hc.2
      · rintro (⟨x, hx | hx, hsome⟩ | hnd)
        · subst hx; exact absurd hsome hl
        · exact Or.inl ⟨x, hx, Or.inl hsome⟩
        · by_cases hmem : nm ∈ rest
          · exact Or.inl ⟨nm, hmem, Or.inr rfl⟩
          · exact Or.inr fun hc => hnd ⟨hmem, hc⟩

/-- C3 counterexample: a non-empty persisted `name2index` is not preserved by
`hasDuplicate` — the call clears it. -/
theorem hasDuplicate_clears_persisted :
    (HighsNameHash.hasDuplicate ⟨[("a", 0)]⟩ []).1 ≠ ⟨[("a", 0)]⟩ := by
  decide

/-- C3 amended: `hasDuplicate` returns `true` exactly when some name occurs at
more than one index of the sequence, and after the call `name2index` is empty
(the persisted mapping is cleared, hence preserved only when it was already
empty). -/
theorem hasDuplicate_spec (h : HighsNameHash) (name : List String) :
    ((h.hasDuplicate name).2 = true ↔ ∃ nm, 2 ≤ name.count nm) ∧
    (h.hasDuplicate name).1.name2index = [] := by
  refine ⟨?_, rfl⟩
  rw [HighsNameHash.hasDuplicate]
  simp only
  rw [hasDuplicateLoop_spec]
  have hnone : ∀ nm : String, ([] : List (String × Int)).lookup nm = none := fun _ => rfl
  simp only [hnone, Option.isSome_none, Bool.false_eq_true, exists_prop, and_false,
    exists_const, false_or]
  rw [List.nodup_iff_count_le_one]
  push_neg
  exact exists_congr fun a => Iff.rfl

/-- C3 witness: the amended statement at a concrete non-empty prior state. -/
theorem hasDuplicate_spec_w :
    (HighsNameHash.hasDuplicate ⟨[("a", 0)]⟩ ["x", "x"]).2 = true ∧
    (HighsNameHash.hasDuplicate ⟨[("a", 0)]⟩ ["x", "x"]).1.name2index = [] :=
  ⟨(hasDuplicate_spec ⟨[("a", 0)]⟩ ["x", "x"]).1.mpr ⟨"x", by decide⟩,
   (hasDuplicate_spec ⟨[("a", 0)]⟩ ["x", "x"]).2⟩

lemma lookup_eraseP_ne (l : List (String × Int)) (n a : String) (h : a ≠ n) :
    (l.eraseP fun p => p.1 == n).lookup a = l.lookup a := by
  induction l with
  | nil => rfl
  | cons p t ih =>
    obtain ⟨k, w⟩ := p
    by_cases hkn : k = n
    · rw [List.eraseP_cons_of_pos (by simp [hkn]), lookup_cons,
        if_neg (fun hc => h (hc.trans hkn))]
    · rw [List.eraseP_cons_of_neg (by simp [hkn]), lookup_cons, lookup_cons]
      by_cases hak : a = k
      · simp [hak]
      · rw [if_neg hak, if_neg hak]
        exact ih

lemma lookup_eraseP_self (l : List (String × Int)) (n : String)
    (hnd : (l.map Prod.fst).Nodup) :
    (l.eraseP fun p => p.1 == n).lookup n = none := by
  induction l with
  | nil => rfl
  | cons p t ih =>
    obtain ⟨k, w⟩ := p
    simp only [List.map_cons, List.nodup_cons] at hnd
    by_cases hkn : k = n
    · rw [List.eraseP_cons_of_pos (by simp [hkn]), lookup_eq_none_iff]
      exact hkn ▸ hnd.1
    · rw [List.eraseP_cons_of_neg (by simp [hkn]), lookup_cons,
        if_neg (fun hc => hkn hc.symm)]
      exact ih hnd.2

/-- The invariant maintained by the `form` loop: after processing the prefix
`seen`, a name absent from `seen` is absent from the map, a name occurring
exactly once maps to its index, and a name occurring at least twice maps to the
sentinel; keys are unique. -/
def NameInv (seen : List String) (m : List (String × Int)) : Prop :=
  (m.map Prod.fst).Nodup ∧
  ∀ nm : String,
    (seen.count nm = 0 → m.lookup nm = none) ∧
    (∀ k : Nat, seen.count nm = 1 → seen.get? k = some nm → m.lookup nm = some (k : Int)) ∧
    (2 ≤ seen.count nm → m.lookup nm = some kHashIsDuplicate)

lemma nameInv_other (seen : List String) (m m2 : List (String × Int)) (nm x : String)
    (hx : x ≠ nm)
    (hprop : (seen.count x = 0 → m.lookup x = none) ∧
      (∀ k : Nat, seen.count x = 1 → seen.get? k = some x → m.lookup x = some (k : Int)) ∧
      (2 ≤ seen.count x → m.lookup x = some kHashIsDuplicate))
    (hlx : m2.lookup x = m.lookup x) :
    ((seen ++ [nm]).count x = 0 → m2.lookup x = none) ∧
    (∀ k : Nat, (seen ++ [nm]).count x = 1 → (seen ++ [nm]).get? k = some x →
      m2.lookup x = some (k : Int)) ∧
    (2 ≤ (seen ++ [nm]).count x → m2.lookup x = some kHashIsDuplicate) := by
  have hcx : (seen ++ [nm]).count x = seen.count x := by
    rw [List.count_append, List.count_singleton']
    simp [Ne.symm hx]
  refine ⟨fun h0 => ?_, fun k h1 hk => ?_, fun h2 => ?_⟩
  · rw [hlx]
    exact hprop.1 (by rwa [hcx] at h0)
  · rw [hlx]
    have hklt : k < seen.length := by
      by_contra hge
      push_neg at hge
      rw [List.get?_append_right hge] at hk
      cases hkk : k - seen.length with
      | zero =>
        rw [hkk] at hk
        simp at hk
        exact hx hk.symm
      | succ j =>
        rw [hkk] at hk
        simp at hk
    rw [List.get?_append hklt] at hk
    exact hprop.2.1 k (by rwa [hcx] at h1) hk
  · rw [hlx]
    exact hprop.2.2 (by rwa [hcx] at h2)

lemma nameInv_step_new (seen : List String) (m : List (String × Int)) (nm : String)
    (h : NameInv seen m) (hl : m.lookup nm = none) :
    NameInv (seen ++ [nm]) (m ++ [(nm, (seen.length : Int))]) := by
  obtain ⟨hnd, hprop⟩ := h
  have hcount0 : seen.count nm = 0 := by
    by_contra hc
    have hpos : 0 < seen.count nm := Nat.pos_of_ne_zero hc
    rcases Nat.lt_or_ge (seen.count nm) 2 with h1 | h2
    · have hone : seen.count nm = 1 := by omega
      have hmem : nm ∈ seen := List.count_pos_iff_mem.mp hpos
      obtain ⟨k, hk⟩ := List.get?_of_mem hmem
      have := (hprop nm).2.1 k hone hk
      rw [hl] at this
      exact Option.noConfusion this
    · have := (hprop nm).2.2 h2
      rw [hl] at this
      exact Option.noConfusion this
  have hnotin : nm ∉ m.map Prod.fst := (lookup_eq_none_iff m nm).mp hl
  constructor
  · rw [List.map_append, List.nodup_append]
    exact ⟨hnd, List.nodup_singleton _, by simpa [List.disjoint_singleton] using hnotin⟩
  · intro x
    by_cases hx : x = nm
    · subst hx
      have hc1 : (seen ++ [x]).count x = 1 := by
        rw [List.count_append, hcount0, List.count_singleton']
        simp
      have hnotseen : x ∉ seen := List.count_eq_zero.mp hcount0
      refine ⟨fun h0 => ?_, fun k h1 hk => ?_, fun h2 => ?_⟩
      · rw [hc1] at h0
        exact absurd h0 one_ne_zero
      · have hkeq : k = seen.length := by
          rcases Nat.lt_or_ge k seen.length with hlt | hge
          · rw [List.get?_append hlt] at hk
            exact absurd (List.get?_mem hk) hnotseen
          · rw [List.get?_append_right hge] at hk
            have hz : k - seen.length = 0 := by
              cases hkk : k - seen.length with
              | zero => rfl
              | succ j =>
                rw [hkk] at hk
                simp at hk
            omega
        subst hkeq
        rw [lookup_append_none _ hl, lookup_cons, if_pos rfl]
      · rw [hc1] at h2
        omega
    · exact nameInv_other seen m _ nm x hx (hprop x) (lookup_append_single_ne _ _ _ _ hx)

lemma nameInv_step_dup (seen : List String) (m : List (String × Int)) (nm : String)
    (h : NameInv seen m) (hl : (m.lookup nm).isSome) :
    NameInv (seen ++ [nm]) ((m.eraseP fun p => p.1 == nm) ++ [(nm, kHashIsDuplicate)]) := by
  obtain ⟨hnd, hprop⟩ := h
  have hcpos : 1 ≤ seen.count nm := by
    by_contra hc
    push_neg at hc
    have h0 : seen.count nm = 0 := by omega
    rw [(hprop nm).1 h0] at hl
    simp at hl
  have herased : (m.eraseP fun p => p.1 == nm).lookup nm = none := lookup_eraseP_self m nm hnd
  have hndE : ((m.eraseP fun p => p.1 == nm).map Prod.fst).Nodup :=
    hnd.sublist ((List.eraseP_sublist m).map Prod.fst)
  constructor
  · rw [List.map_append, List.nodup_append]
    refine ⟨hndE, List.nodup_singleton _, ?_⟩
    simpa [List.disjoint_singleton] using (lookup_eq_none_iff _ nm).mp herased
  · intro x
    by_cases hx : x = nm
    · subst hx
      have hc2 : 2 ≤ (seen ++ [x]).count x := by
        rw [List.count_append, List.count_singleton', if_pos rfl]
        omega
      refine ⟨fun h0 => ?_, fun k h1 hk => ?_, fun _ => ?_⟩
      · rw [h0] at hc2
        omega
      · rw [h1] at hc2
        omega
      · rw [lookup_append_none _ herased, lookup_cons, if_pos rfl]
    · refine nameInv_other seen m _ nm x hx (hprop x) ?_
      rw [lookup_append_single_ne _ _ _ _ hx, lookup_eraseP_ne m nm x hx]

/-- Loop of `HighsNameHash::form` (HighsLp.cpp:421-431): emplace each name
with its index; on a collision, erase the existing entry and insert the
sentinel instead. -/
def formLoop : List (String × Int) → Int → List String → List (String × Int)
  | m, _, [] => m
  | m, idx, nm :: rest =>
    if (m.lookup nm).isSome then
      formLoop ((m.eraseP fun p => p.1 == nm) ++ [(nm, kHashIsDuplicate)]) (idx + 1) rest
    else
      formLoop (m ++ [(nm, idx)]) (idx + 1) rest

/-- `HighsNameHash::form` (HighsLp.cpp:418-432): clears, then runs the
emplace/mark-duplicate loop from index `0`. -/
def HighsNameHash.form (_h : HighsNameHash) (name : List String) : HighsNameHash :=
  ⟨formLoop [] 0 name⟩

lemma formLoop_inv : ∀ (rest seen : List String) (m : List (String × Int)),
    NameInv seen m → NameInv (seen ++ rest) (formLoop m (seen.length : Int) rest) := by
  intro rest
  induction rest with
  | nil =>
    intro seen m h
    simpa [formLoop] using h
  | cons nm rest ih =>
    intro seen m h
    rw [formLoop]
    by_cases hl : (m.lookup nm).isSome
    · rw [if_pos hl]
      have := ih (seen ++ [nm]) _ (nameInv_step_dup seen m nm h hl)
      simpa [List.append_assoc, Nat.cast_add, Nat.cast_one] using this
    · rw [if_neg hl]
      have := ih (seen ++ [nm]) _
        (nameInv_step_new seen m nm h (Option.not_isSome_iff_eq_none.mp hl))
      simpa [List.append_assoc, Nat.cast_add, Nat.cast_one] using this

/-- C7: `form` maps a name occurring at exactly one index to that index, and a
name occurring at two or more indices to the duplicate sentinel; on
["x1","x2","x1"], `hasDuplicate` returns `true`. -/
theorem form_spec :
    (∀ (h : HighsNameHash) (name : List String) (nm : String),
      (name.count nm = 0 → (h.form name).name2index.lookup nm = none) ∧
      (∀ k : Nat, name.count nm = 1 → name.get? k = some nm →
        (h.form name).name2index.lookup nm = some (k : Int)) ∧
      (2 ≤ name.count nm → (h.form name).name2index.lookup nm = some kHashIsDuplicate)) ∧
    (HighsNameHash.hasDuplicate ⟨[]⟩ ["x1", "x2", "x1"]).2 = true := by
  constructor
  · intro h name nm
    have hbase : NameInv [] [] := by
      refine ⟨List.nodup_nil, fun x => ⟨fun _ => rfl, fun k h1 hk => ?_, fun h2 => ?_⟩⟩
      · simp at hk
      · simp at h2
    have hinv := formLoop_inv name [] [] hbase
    simp only [List.nil_append, List.length_nil, Nat.cast_zero] at hinv
    exact hinv.2 nm
  · rfl

/-- C7 witness: the mapping built from ["x1","x2","x1"]. -/
theorem form_spec_w :
    (HighsNameHash.form ⟨[]⟩ ["x1", "x2", "x1"]).name2index.lookup "x1" =
      some kHashIsDuplicate ∧
    (HighsNameHash.form ⟨[]⟩ ["x1", "x2", "x1"]).name2index.lookup "x2" = some 1 ∧
    (HighsNameHash.hasDuplicate ⟨[]⟩ ["x1", "x2", "x1"]).2 = true :=
  ⟨(form_spec.1 ⟨[]⟩ ["x1", "x2", "x1"] "x1").2.2 (by decide),
   (form_spec.1 ⟨[]⟩ ["x1", "x2", "x1"] "x2").2.1 1 (by decide) (by decide),
   form_spec.2⟩

/-- The synthesized column name `"col_ekk_" + std::to_string(ix)`
(HighsLp.cpp:248-249). -/
def synthColName (ix : Nat) : String := "col_ekk_" ++ toString ix

/-- Loop of `HighsLp::addColNames` (HighsLp.cpp:246-277), taking the snapshot
`col_names_size`, the fixed `num_col`, the remaining count, and the mutable
state (names, hash, name counter, current column).  On any failure to add
(name already hashed, or no blank pre-sized slot) the hash is cleared and the
loop returns. -/
def addColNamesLoop (col_names_size num_col : Nat) :
    Nat → List String → List (String × Int) → Nat → Nat →
      List String × List (String × Int) × Nat
  | 0, names, hash, ix, _ => (names, hash, ix)
  | k + 1, names, hash, ix, iCol =>
    let col_name := synthColName ix
    if (hash.lookup col_name).isSome then (names, [], ix + 1)
    else if col_names_size = num_col then
      addColNamesLoop col_names_size num_col k (names ++ [col_name])
        (hash ++ [(col_name, (iCol : Int))]) (ix + 1) (iCol + 1)
    else if iCol < col_names_size ∧ names.getD iCol "" = "" then
      addColNamesLoop col_names_size num_col k (names.set iCol col_name)
        (hash ++ [(col_name, (iCol : Int))]) (ix + 1) (iCol + 1)
    else (names, [], ix + 1)

/-- `HighsLp::addColNames` (HighsLp.cpp:236-278).  `name` is asserted to be
`""` (user-defined names are not yet handled); no-op when there are no columns
or the name sequence is incomplete; the hash is formed from the names when
empty. -/
def HighsLp.addColNames (lp : HighsLp) (name : String) (num_new_col : Nat) : HighsLp :=
  if lp.num_col_ = 0 then lp
  else if lp.col_names_.length < lp.num_col_ then lp
  else
    let hash0 := if lp.col_hash_.name2index.length ≠ 0 then lp.col_hash_.name2index
      else formLoop [] 0 lp.col_names_
    let r := addColNamesLoop lp.col_names_.length lp.num_col_ num_new_col
      lp.col_names_ hash0 lp.new_col_name_ix_ lp.num_col_
    { lp with col_names_ := r.1, col_hash_ := ⟨r.2.1⟩, new_col_name_ix_ := r.2.2 }

/-- C6: when a synthesized name is already present in the hash, or its
pre-sized slot is non-blank, the batch aborts at that step: the hash is
cleared, the names written so far are kept but no name is written for this or
any later index, and the call returns normally (the second conjunct lifts this
to `addColNames` for a collision at the first new index). -/
theorem addColNames_abort_on_collision :
    (∀ (csize ncol k : Nat) (names : List String) (hash : List (String × Int)) (ix iCol : Nat),
      ((hash.lookup (synthColName ix)).isSome ∨
        (iCol < csize ∧ csize ≠ ncol ∧ names.getD iCol "" ≠ "")) →
      addColNamesLoop csize ncol (k + 1) names hash ix iCol = (names, [], ix + 1)) ∧
    (∀ (lp : HighsLp) (k : Nat),
      0 < lp.num_col_ → lp.num_col_ ≤ lp.col_names_.length →
      lp.col_hash_.name2index ≠ [] →
      (lp.col_hash_.name2index.lookup (synthColName lp.new_col_name_ix_)).isSome →
      lp.addColNames "" (k + 1) =
        { lp with col_hash_ := ⟨[]⟩, new_col_name_ix_ := lp.new_col_name_ix_ + 1 }) := by
  have habort : ∀ (csize ncol k : Nat) (names : List String) (hash : List (String × Int))
      (ix iCol : Nat),
      ((hash.lookup (synthColName ix)).isSome ∨
        (iCol < csize ∧ csize ≠ ncol ∧ names.getD iCol "" ≠ "")) →
      addColNamesLoop csize ncol (k + 1) names hash ix iCol = (names, [], ix + 1) := by
    rintro csize ncol k names hash ix iCol hcol
    rw [addColNamesLoop]
    by_cases hl : (hash.lookup (synthColName ix)).isSome
    · rw [if_pos hl]
    · rcases hcol with hcol | ⟨h1, h2, h3⟩
      · exact absurd hcol hl
      · rw [if_neg hl, if_neg h2, if_neg (fun hc => h3 hc.2)]
  refine ⟨habort, fun lp k h1 h2 h3 h4 => ?_⟩
  rw [HighsLp.addColNames,
    if_neg (Nat.pos_iff_ne_zero.mp h1), if_neg (not_lt.mpr h2)]
  have h3' : lp.col_hash_.name2index.length ≠ 0 :=
    fun hz => h3 (List.length_eq_zero.mp hz)
  simp only [h3', if_true, ne_eq, not_false_eq_true, ite_true]
  rw [habort _ _ _ _ _ _ _ (Or.inl h4)]

def lpC6 : HighsLp :=
  { lp0 with num_col_ := 1, col_cost_ := [0], col_lower_ := [0], col_upper_ := [1],
             col_names_ := ["a"], col_hash_ := ⟨[("col_ekk_5", 0)]⟩,
             new_col_name_ix_ := 5 }

/-- C6 witness: an aborting loop step, and an aborting `addColNames` call on a
model whose next synthetic name is already hashed. -/
theorem addColNames_abort_on_collision_w :
    addColNamesLoop 1 1 1 ["a"] [("col_ekk_0", (0 : Int))] 0 1 = (["a"], [], 1) ∧
    lpC6.addColNames "" 1 = { lpC6 with col_hash_ := ⟨[]⟩, new_col_name_ix_ := 6 } :=
  ⟨addColNames_abort_on_collision.1 1 1 0 ["a"] [("col_ekk_0", (0 : Int))] 0 1
      (Or.inl (by decide)),
   addColNames_abort_on_collision.2 lpC6 0 (by decide) (by decide) (by decide) (by decide)⟩

/- `unapplyMods` (HighsLp.cpp:324-389).  Each of the four restore phases is a
loop over one journal log; the `k`-indexed parallel reads of the index and
saved-value vectors (asserted consistent) are modelled by zipping the logs. -/

/-- Phase 1 of `HighsLp::unapplyMods` (HighsLp.cpp:325-336): each logged
column, currently continuous or integer (asserted), becomes semi-continuous
resp. semi-integer. -/
def restoreNonSemi : List Nat → HighsLp → HighsLp
  | [], lp => lp
  | i :: rest, lp =>
    restoreNonSemi rest
      { lp with integrality_ := (lp.integrality_.set i
          (if lp.integrality_.getD i HighsVarType.kContinuous = HighsVarType.kContinuous
           then HighsVarType.kSemiContinuous else HighsVarType.kSemiInteger)) }

/-- Phase 2 (HighsLp.cpp:337-355): overwrite lower bound, upper bound and type
with the explicitly saved values. -/
def restoreInconsistent : List (Nat × ℚ × ℚ × HighsVarType) → HighsLp → HighsLp
  | [], lp => lp
  | (i, lo, up, t) :: rest, lp =>
    restoreInconsistent rest
      { lp with col_lower_ := lp.col_lower_.set i lo,
                col_upper_ := lp.col_upper_.set i up,
                integrality_ := lp.integrality_.set i t }

/-- Phase 3 (HighsLp.cpp:356-370): overwrite relaxed lower bounds with the
saved values. -/
def restoreRelaxedLower : List (Nat × ℚ) → HighsLp → HighsLp
  | [], lp => lp
  | (i, v) :: rest, lp =>
    restoreRelaxedLower rest { lp with col_lower_ := lp.col_lower_.set i v }

/-- Phase 4 (HighsLp.cpp:371-386): overwrite tightened upper bounds with the
saved values. -/
def restoreTightenedUpper : List (Nat × ℚ) → HighsLp → HighsLp
  | [], lp => lp
  | (i, v) :: rest, lp =>
    restoreTightenedUpper rest { lp with col_upper_ := lp.col_upper_.set i v }

/-- `HighsLp::unapplyMods` (HighsLp.cpp:324-389): the four phases in source
order, then `mods_.clear()`. -/
def HighsLp.unapplyMods (lp : HighsLp) : HighsLp :=
  let m := lp.mods_
  let lp1 := restoreNonSemi m.save_non_semi_variable_index lp
  let lp2 := restoreInconsistent
    (m.save_inconsistent_semi_variable_index.zip
      (m.save_inconsistent_semi_variable_lower_bound_value.zip
        (m.save_inconsistent_semi_variable_upper_bound_value.zip
          m.save_inconsistent_semi_variable_type))) lp1
  let lp3 := restoreRelaxedLower
    (m.save_relaxed_semi_variable_lower_bound_index.zip
      m.save_relaxed_semi_variable_lower_bound_value) lp2
  let lp4 := restoreTightenedUpper
    (m.save_tightened_semi_variable_upper_bound_index.zip
      m.save_tightened_semi_variable_upper_bound_value) lp3
  { lp4 with mods_ := lp4.mods_.clear }

/-- The checked assertion of phase 1 (HighsLp.cpp:329-330), replayed along the
loop: each logged column is continuous or integer when processed. -/
def nonSemiOk : List Nat → List HighsVarType → Bool
  | [], _ => true
  | i :: rest, integ =>
    decide (integ.getD i HighsVarType.kContinuous = HighsVarType.kContinuous ∨
      integ.getD i HighsVarType.kContinuous = HighsVarType.kInteger) &&
    nonSemiOk rest (integ.set i
      (if integ.getD i HighsVarType.kContinuous = HighsVarType.kContinuous
       then HighsVarType.kSemiContinuous else HighsVarType.kSemiInteger))

/-- The checked assertions of phases 3 and 4 (HighsLp.cpp:367-368 and 383-384):
each logged column is semi-continuous or semi-integer when processed. -/
def semiOk (integ : List HighsVarType) (idx : List Nat) : Bool :=
  idx.all fun i =>
    decide (integ.getD i HighsVarType.kContinuous = HighsVarType.kSemiContinuous ∨
      integ.getD i HighsVarType.kContinuous = HighsVarType.kSemiInteger)

/-- The assertion preconditions of `unapplyMods`, evaluated at the states the
source evaluates them in. -/
def HighsLp.unapplyModsOk (lp : HighsLp) : Bool :=
  let m := lp.mods_
  let lp1 := restoreNonSemi m.save_non_semi_variable_index lp
  let lp2 := restoreInconsistent
    (m.save_inconsistent_semi_variable_index.zip
      (m.save_inconsistent_semi_variable_lower_bound_value.zip
        (m.save_inconsistent_semi_variable_upper_bound_value.zip
          m.save_inconsistent_semi_variable_type))) lp1
  let lp3 := restoreRelaxedLower
    (m.save_relaxed_semi_variable_lower_bound_index.zip
      m.save_relaxed_semi_variable_lower_bound_value) lp2
  nonSemiOk m.save_non_semi_variable_index lp.integrality_ &&
  semiOk lp2.integrality_ m.save_relaxed_semi_variable_lower_bound_index &&
  semiOk lp3.integrality_ m.save_tightened_semi_variable_upper_bound_index

lemma restoreNonSemi_frame (L : List Nat) (lp : HighsLp) :
    (restoreNonSemi L lp).col_lower_ = lp.col_lower_ ∧
    (restoreNonSemi L lp).col_upper_ = lp.col_upper_ ∧
    (restoreNonSemi L lp).mods_ = lp.mods_ ∧
    (restoreNonSemi L lp).integrality_.length = lp.integrality_.length := by
  induction L generalizing lp with
  | nil => exact ⟨rfl, rfl, rfl, rfl⟩
  | cons i rest ih =>
    rw [restoreNonSemi]
    simpa [List.length_set] using
      ih { lp with integrality_ := (lp.integrality_.set i
        (if lp.integrality_.getD i HighsVarType.kContinuous = HighsVarType.kContinuous
         then HighsVarType.kSemiContinuous else HighsVarType.kSemiInteger)) }

lemma restoreNonSemi_getD_not_mem (L : List Nat) (lp : HighsLp) (i : Nat) (h : i ∉ L) :
    (restoreNonSemi L lp).integrality_.getD i HighsVarType.kContinuous =
      lp.integrality_.getD i HighsVarType.kContinuous := by
  induction L generalizing lp with
  | nil => rfl
  | cons j rest ih =>
    rw [restoreNonSemi]
    have hij : i ≠ j := fun hc => h (by simp [hc])
    rw [ih _ (fun hc => h (by simp [hc]))]
    exact getD_set_ne _ _ _ _ _ hij

lemma restoreNonSemi_getD_mem (L : List Nat) (lp : HighsLp) (i : Nat)
    (hnd : L.Nodup) (hmem : i ∈ L) (hlen : i < lp.integrality_.length) :
    (restoreNonSemi L lp).integrality_.getD i HighsVarType.kContinuous =
      (if lp.integrality_.getD i HighsVarType.kContinuous = HighsVarType.kContinuous
       then HighsVarType.kSemiContinuous else HighsVarType.kSemiInteger) := by
  induction L generalizing lp with
  | nil => simp at hmem
  | cons j rest ih =>
    rw [restoreNonSemi]
    rw [List.nodup_cons] at hnd
    rcases List.mem_cons.mp hmem with heq | hmem'
    · subst heq
      rw [restoreNonSemi_getD_not_mem rest _ i hnd.1]
      exact getD_set_self _ _ _ _ hlen
    · have hij : i ≠ j := fun hc => hnd.1 (hc ▸ hmem')
      rw [ih _ hnd.2 hmem' (by simpa [List.length_set] using hlen)]
      rw [getD_set_ne _ _ _ _ _ hij]

lemma restoreInconsistent_frame (L : List (Nat × ℚ × ℚ × HighsVarType)) (lp : HighsLp) :
    (restoreInconsistent L lp).mods_ = lp.mods_ ∧
    (restoreInconsistent L lp).col_lower_.length = lp.col_lower_.length ∧
    (restoreInconsistent L lp).col_upper_.length = lp.col_upper_.length ∧
    (restoreInconsistent L lp).integrality_.length = lp.integrality_.length := by
  induction L generalizing lp with
  | nil => exact ⟨rfl, rfl, rfl, rfl⟩
  | cons e rest ih =>
    obtain ⟨j, lo, up, t⟩ := e
    rw [restoreInconsistent]
    simpa [List.length_set] using
      ih { lp with col_lower_ := lp.col_lower_.set j lo,
                   col_upper_ := lp.col_upper_.set j up,
                   integrality_ := lp.integrality_.set j t }

lemma restoreInconsistent_getD_not_mem (L : List (Nat × ℚ × ℚ × HighsVarType))
    (lp : HighsLp) (i : Nat) (h : i ∉ L.map Prod.fst) :
    (restoreInconsistent L lp).col_lower_.getD i 0 = lp.col_lower_.getD i 0 ∧
    (restoreInconsistent L lp).col_upper_.getD i 0 = lp.col_upper_.getD i 0 ∧
    (restoreInconsistent L lp).integrality_.getD i HighsVarType.kContinuous =
      lp.integrality_.getD i HighsVarType.kContinuous := by
  induction L generalizing lp with
  | nil => exact ⟨rfl, rfl, rfl⟩
  | cons e rest ih =>
    obtain ⟨j, lo, up, t⟩ := e
    have hij : i ≠ j := fun hc => h (by simp [hc])
    rw [restoreInconsistent]
    have hrec := ih
      { lp with
          col_lower_ := lp.col_lower_.set j lo,
          col_upper_ := lp.col_upper_.set j up,
          integrality_ := lp.integrality_.set j t }
      (fun hc => h (by simp only [List.map_cons, List.mem_cons]; exact Or.inr hc))
    rw [hrec.1, hrec.2.1, hrec.2.2]
    exact ⟨getD_set_ne _ _ _ _ _ hij, getD_set_ne _ _ _ _ _ hij, getD_set_ne _ _ _ _ _ hij⟩

lemma restoreInconsistent_getD_mem (L : List (Nat × ℚ × ℚ × HighsVarType))
    (lp : HighsLp) (i : Nat) (lo up : ℚ) (t : HighsVarType)
    (hnd : (L.map Prod.fst).Nodup) (hmem : (i, lo, up, t) ∈ L)
    (hlo : i < lp.col_lower_.length) (hup : i < lp.col_upper_.length)
    (hin : i < lp.integrality_.length) :
    (restoreInconsistent L lp).col_lower_.getD i 0 = lo ∧
    (restoreInconsistent L lp).col_upper_.getD i 0 = up ∧
    (restoreInconsistent L lp).integrality_.getD i HighsVarType.kContinuous = t := by
  induction L generalizing lp with
  | nil => simp at hmem
  | cons e rest ih =>
    obtain ⟨j, lo2, up2, t2⟩ := e
    simp only [List.map_cons, List.nodup_cons] at hnd
    rw [restoreInconsistent]
    rcases List.mem_cons.mp hmem with heq | hmem'
    · simp only [Prod.mk.injEq] at heq
      obtain ⟨rfl, rfl, rfl, rfl⟩ := heq
      have hrec := restoreInconsistent_getD_not_mem rest
        { lp with col_lower_ := lp.col_lower_.set i lo,
                  col_upper_ := lp.col_upper_.set i up,
                  integrality_ := lp.integrality_.set i t } i hnd.1
      rw [hrec.1, hrec.2.1, hrec.2.2]
      exact ⟨getD_set_self _ _ _ _ hlo, getD_set_self _ _ _ _ hup, getD_set_self _ _ _ _ hin⟩
    · exact ih _ hnd.2 hmem' (by simpa [List.length_set] using hlo)
        (by simpa [List.length_set] using hup) (by simpa [List.length_set] using hin)

lemma restoreRelaxedLower_frame (L : List (Nat × ℚ)) (lp : HighsLp) :
    (restoreRelaxedLower L lp).col_upper_ = lp.col_upper_ ∧
    (restoreRelaxedLower L lp).integrality_ = lp.integrality_ ∧
    (restoreRelaxedLower L lp).mods_ = lp.mods_ ∧
    (restoreRelaxedLower L lp).col_lower_.length = lp.col_lower_.length := by
  induction L generalizing lp with
  | nil => exact ⟨rfl, rfl, rfl, rfl⟩
  | cons e rest ih =>
    obtain ⟨j, v⟩ := e
    rw [restoreRelaxedLower]
    simpa [List.length_set] using ih { lp with col_lower_ := lp.col_lower_.set j v }

lemma restoreRelaxedLower_getD_not_mem (L : List (Nat × ℚ)) (lp : HighsLp) (i : Nat)
    (h : i ∉ L.map Prod.fst) :
    (restoreRelaxedLower L lp).col_lower_.getD i 0 = lp.col_lower_.getD i 0 := by
  induction L generalizing lp with
  | nil => rfl
  | cons e rest ih =>
    obtain ⟨j, v⟩ := e
    have hij : i ≠ j := fun hc => h (by simp [hc])
    rw [restoreRelaxedLower]
    rw [ih _ (fun hc => h (by simp only [List.map_cons, List.mem_cons]; exact Or.inr hc))]
    exact getD_set_ne _ _ _ _ _ hij

lemma restoreRelaxedLower_getD_mem (L : List (Nat × ℚ)) (lp : HighsLp) (i : Nat) (v : ℚ)
    (hnd : (L.map Prod.fst).Nodup) (hmem : (i, v) ∈ L) (hlo : i < lp.col_lower_.length) :
    (restoreRelaxedLower L lp).col_lower_.getD i 0 = v := by
  induction L generalizing lp with
  | nil => simp at hmem
  | cons e rest ih =>
    obtain ⟨j, v2⟩ := e
    simp only [List.map_cons, List.nodup_cons] at hnd
    rw [restoreRelaxedLower]
    rcases List.mem_cons.mp hmem with heq | hmem'
    · simp only [Prod.mk.injEq] at heq
      obtain ⟨rfl, rfl⟩ := heq
      rw [restoreRelaxedLower_getD_not_mem rest _ i hnd.1]
      exact getD_set_self _ _ _ _ hlo
    · exact ih _ hnd.2 hmem' (by simpa [List.length_set] using hlo)

lemma restoreTightenedUpper_frame (L : List (Nat × ℚ)) (lp : HighsLp) :
    (restoreTightenedUpper L lp).col_lower_ = lp.col_lower_ ∧
    (restoreTightenedUpper L lp).integrality_ = lp.integrality_ ∧
    (restoreTightenedUpper L lp).mods_ = lp.mods_ ∧
    (restoreTightenedUpper L lp).col_upper_.length = lp.col_upper_.length := by
  induction L generalizing lp with
  | nil => exact ⟨rfl, rfl, rfl, rfl⟩
  | cons e rest ih =>
    obtain ⟨j, v⟩ := e
    rw [restoreTightenedUpper]
    simpa [List.length_set] using ih { lp with col_upper_ := lp.col_upper_.set j v }

lemma restoreTightenedUpper_getD_not_mem (L : List (Nat × ℚ)) (lp : HighsLp) (i : Nat)
    (h : i ∉ L.map Prod.fst) :
    (restoreTightenedUpper L lp).col_upper_.getD i 0 = lp.col_upper_.getD i 0 := by
  induction L generalizing lp with
  | nil => rfl
  | cons e rest ih =>
    obtain ⟨j, v⟩ := e
    have hij : i ≠ j := fun hc => h (by simp [hc])
    rw [restoreTightenedUpper]
    rw [ih _ (fun hc => h (by simp only [List.map_cons, List.mem_cons]; exact Or.inr hc))]
    exact getD_set_ne _ _ _ _ _ hij

lemma restoreTightenedUpper_getD_mem (L : List (Nat × ℚ)) (lp : HighsLp) (i : Nat) (v : ℚ)
    (hnd : (L.map Prod.fst).Nodup) (hmem : (i, v) ∈ L) (hup : i < lp.col_upper_.length) :
    (restoreTightenedUpper L lp).col_upper_.getD i 0 = v := by
  induction L generalizing lp with
  | nil => simp at hmem
  | cons e rest ih =>
    obtain ⟨j, v2⟩ := e
    simp only [List.map_cons, List.nodup_cons] at hnd
    rw [restoreTightenedUpper]
    rcases List.mem_cons.mp hmem with heq | hmem'
    · simp only [Prod.mk.injEq] at heq
      obtain ⟨rfl, rfl⟩ := heq
      rw [restoreTightenedUpper_getD_not_mem rest _ i hnd.1]
      exact getD_set_self _ _ _ _ hup
    · exact ih _ hnd.2 hmem' (by simpa [List.length_set] using hup)

/-- The four restore phases of `unapplyMods` in source order, abstracted over
the (zipped) logs. -/
def restorePhases (I1 : List Nat) (P2 : List (Nat × ℚ × ℚ × HighsVarType))
    (P3 P4 : List (Nat × ℚ)) (lp : HighsLp) : HighsLp :=
  restoreTightenedUpper P4 (restoreRelaxedLower P3
    (restoreInconsistent P2 (restoreNonSemi I1 lp)))

lemma phases12_lower_len (I1 : List Nat) (P2 : List (Nat × ℚ × ℚ × HighsVarType))
    (lp : HighsLp) :
    (restoreInconsistent P2 (restoreNonSemi I1 lp)).col_lower_.length =
      lp.col_lower_.length := by
  rw [(restoreInconsistent_frame P2 _).2.1, (restoreNonSemi_frame I1 lp).1]

lemma phases12_upper_len (I1 : List Nat) (P2 : List (Nat × ℚ × ℚ × HighsVarType))
    (lp : HighsLp) :
    (restoreInconsistent P2 (restoreNonSemi I1 lp)).col_upper_.length =
      lp.col_upper_.length := by
  rw [(restoreInconsistent_frame P2 _).2.2.1, (restoreNonSemi_frame I1 lp).2.1]

lemma restorePhases_lower_mem3 (I1 : List Nat) (P2 : List (Nat × ℚ × ℚ × HighsVarType))
    (P3 P4 : List (Nat × ℚ)) (lp : HighsLp) (i : Nat) (v : ℚ)
    (hnd3 : (P3.map Prod.fst).Nodup) (hmem : (i, v) ∈ P3)
    (hlen : i < lp.col_lower_.length) :
    (restorePhases I1 P2 P3 P4 lp).col_lower_.getD i 0 = v := by
  rw [restorePhases, (restoreTightenedUpper_frame P4 _).1]
  exact restoreRelaxedLower_getD_mem P3 _ i v hnd3 hmem
    (by rw [phases12_lower_len]; exact hlen)

lemma restorePhases_upper_mem4 (I1 : List Nat) (P2 : List (Nat × ℚ × ℚ × HighsVarType))
    (P3 P4 : List (Nat × ℚ)) (lp : HighsLp) (i : Nat) (v : ℚ)
    (hnd4 : (P4.map Prod.fst).Nodup) (hmem : (i, v) ∈ P4)
    (hlen : i < lp.col_upper_.length) :
    (restorePhases I1 P2 P3 P4 lp).col_upper_.getD i 0 = v := by
  rw [restorePhases]
  exact restoreTightenedUpper_getD_mem P4 _ i v hnd4 hmem
    (by rw [(restoreRelaxedLower_frame P3 _).1, phases12_upper_len]; exact hlen)

lemma restorePhases_mem2 (I1 : List Nat) (P2 : List (Nat × ℚ × ℚ × HighsVarType))
    (P3 P4 : List (Nat × ℚ)) (lp : HighsLp) (i : Nat) (lo up : ℚ) (t : HighsVarType)
    (hnd2 : (P2.map Prod.fst).Nodup) (hmem : (i, lo, up, t) ∈ P2)
    (hlo : i < lp.col_lower_.length) (hup : i < lp.col_upper_.length)
    (hin : i < lp.integrality_.length) :
    ((i ∉ P3.map Prod.fst → (restorePhases I1 P2 P3 P4 lp).col_lower_.getD i 0 = lo) ∧
     (i ∉ P4.map Prod.fst → (restorePhases I1 P2 P3 P4 lp).col_upper_.getD i 0 = up) ∧
     (restorePhases I1 P2 P3 P4 lp).integrality_.getD i HighsVarType.kContinuous = t) := by
  have hm2 := restoreInconsistent_getD_mem P2 (restoreNonSemi I1 lp) i lo up t hnd2 hmem
    (by rw [(restoreNonSemi_frame I1 lp).1]; exact hlo)
    (by rw [(restoreNonSemi_frame I1 lp).2.1]; exact hup)
    (by rw [(restoreNonSemi_frame I1 lp).2.2.2]; exact hin)
  refine ⟨fun h3 => ?_, fun h4 => ?_, ?_⟩
  · rw [restorePhases, (restoreTightenedUpper_frame P4 _).1,
      restoreRelaxedLower_getD_not_mem P3 _ i h3]
    exact hm2.1
  · rw [restorePhases, restoreTightenedUpper_getD_not_mem P4 _ i h4,
      (restoreRelaxedLower_frame P3 _).1]
    exact hm2.2.1
  · rw [restorePhases, (restoreTightenedUpper_frame P4 _).2.1,
      (restoreRelaxedLower_frame P3 _).2.1]
    exact hm2.2.2

lemma restorePhases_mem1 (I1 : List Nat) (P2 : List (Nat × ℚ × ℚ × HighsVarType))
    (P3 P4 : List (Nat × ℚ)) (lp : HighsLp) (i : Nat)
    (hnd1 : I1.Nodup) (hmem : i ∈ I1) (hnmem2 : i ∉ P2.map Prod.fst)
    (hin : i < lp.integrality_.length) :
    (restorePhases I1 P2 P3 P4 lp).integrality_.getD i HighsVarType.kContinuous =
      (if lp.integrality_.getD i HighsVarType.kContinuous = HighsVarType.kContinuous
       then HighsVarType.kSemiContinuous else HighsVarType.kSemiInteger) := by
  rw [restorePhases, (restoreTightenedUpper_frame P4 _).2.1,
    (restoreRelaxedLower_frame P3 _).2.1,
    (restoreInconsistent_getD_not_mem P2 _ i hnmem2).2.2]
  exact restoreNonSemi_getD_mem I1 lp i hnd1 hmem hin

lemma restorePhases_lower_frame (I1 : List Nat) (P2 : List (Nat × ℚ × ℚ × HighsVarType))
    (P3 P4 : List (Nat × ℚ)) (lp : HighsLp) (i : Nat)
    (hnmem2 : i ∉ P2.map Prod.fst) (hnmem3 : i ∉ P3.map Prod.fst) :
    (restorePhases I1 P2 P3 P4 lp).col_lower_.getD i 0 = lp.col_lower_.getD i 0 := by
  rw [restorePhases, (restoreTightenedUpper_frame P4 _).1,
    restoreRelaxedLower_getD_not_mem P3 _ i hnmem3,
    (restoreInconsistent_getD_not_mem P2 _ i hnmem2).1,
    (restoreNonSemi_frame I1 lp).1]

lemma restorePhases_upper_frame (I1 : List Nat) (P2 : List (Nat × ℚ × ℚ × HighsVarType))
    (P3 P4 : List (Nat × ℚ)) (lp : HighsLp) (i : Nat)
    (hnmem2 : i ∉ P2.map Prod.fst) (hnmem4 : i ∉ P4.map Prod.fst) :
    (restorePhases I1 P2 P3 P4 lp).col_upper_.getD i 0 = lp.col_upper_.getD i 0 := by
  rw [restorePhases, restoreTightenedUpper_getD_not_mem P4 _ i hnmem4,
    (restoreRelaxedLower_frame P3 _).1,
    (restoreInconsistent_getD_not_mem P2 _ i hnmem2).2.1,
    (restoreNonSemi_frame I1 lp).2.1]

lemma restorePhases_int_frame (I1 : List Nat) (P2 : List (Nat × ℚ × ℚ × HighsVarType))
    (P3 P4 : List (Nat × ℚ)) (lp : HighsLp) (i : Nat)
    (hnmem1 : i ∉ I1) (hnmem2 : i ∉ P2.map Prod.fst) :
    (restorePhases I1 P2 P3 P4 lp).integrality_.getD i HighsVarType.kContinuous =
      lp.integrality_.getD i HighsVarType.kContinuous := by
  rw [restorePhases, (restoreTightenedUpper_frame P4 _).2.1,
    (restoreRelaxedLower_frame P3 _).2.1,
    (restoreInconsistent_getD_not_mem P2 _ i hnmem2).2.2,
    restoreNonSemi_getD_not_mem I1 lp i hnmem1]

/-- C5: under the journal's restore preconditions — consistent log lengths,
in-range and duplicate-free per-log column indices, and the asserted type
conditions (`unapplyModsOk`) — `unapplyMods` processes the logs in the fixed
order type-downgrade, inconsistent-override, lower-relax, upper-tighten: every
saved bound and type is written back (log 1 inferring semi-continuous from
continuous and semi-integer from integer, log 2 taking its explicit saved type
verbatim, logs 3/4 overriding log 2 on shared columns per the order), columns
absent from the relevant logs are unchanged, and afterwards the journal is
empty and `isClear` returns `true`. -/
theorem unapplyMods_spec (lp : HighsLp)
    (hlo : lp.col_lower_.length = lp.num_col_)
    (hup : lp.col_upper_.length = lp.num_col_)
    (hin : lp.integrality_.length = lp.num_col_)
    (hlen2lo : lp.mods_.save_inconsistent_semi_variable_lower_bound_value.length =
      lp.mods_.save_inconsistent_semi_variable_index.length)
    (hlen2up : lp.mods_.save_inconsistent_semi_variable_upper_bound_value.length =
      lp.mods_.save_inconsistent_semi_variable_index.length)
    (hlen2t : lp.mods_.save_inconsistent_semi_variable_type.length =
      lp.mods_.save_inconsistent_semi_variable_index.length)
    (hlen3 : lp.mods_.save_relaxed_semi_variable_lower_bound_value.length =
      lp.mods_.save_relaxed_semi_variable_lower_bound_index.length)
    (hlen4 : lp.mods_.save_tightened_semi_variable_upper_bound_value.length =
      lp.mods_.save_tightened_semi_variable_upper_bound_index.length)
    (hr1 : ∀ i ∈ lp.mods_.save_non_semi_variable_index, i < lp.num_col_)
    (hr2 : ∀ i ∈ lp.mods_.save_inconsistent_semi_variable_index, i < lp.num_col_)
    (hr3 : ∀ i ∈ lp.mods_.save_relaxed_semi_variable_lower_bound_index, i < lp.num_col_)
    (hr4 : ∀ i ∈ lp.mods_.save_tightened_semi_variable_upper_bound_index, i < lp.num_col_)
    (hnd1 : lp.mods_.save_non_semi_variable_index.Nodup)
    (hnd2 : lp.mods_.save_inconsistent_semi_variable_index.Nodup)
    (hnd3 : lp.mods_.save_relaxed_semi_variable_lower_bound_index.Nodup)
    (hnd4 : lp.mods_.save_tightened_semi_variable_upper_bound_index.Nodup)
    (hok : lp.unapplyModsOk = true) :
    (lp.unapplyMods.mods_ = emptyMods ∧ lp.unapplyMods.mods_.isClear = true) ∧
    (∀ (i : Nat) (lo up : ℚ) (t : HighsVarType),
      (i, lo, up, t) ∈ lp.mods_.save_inconsistent_semi_variable_index.zip
        (lp.mods_.save_inconsistent_semi_variable_lower_bound_value.zip
          (lp.mods_.save_inconsistent_semi_variable_upper_bound_value.zip
            lp.mods_.save_inconsistent_semi_variable_type)) →
      ((i ∉ lp.mods_.save_relaxed_semi_variable_lower_bound_index →
          lp.unapplyMods.col_lower_.getD i 0 = lo) ∧
       (i ∉ lp.mods_.save_tightened_semi_variable_upper_bound_index →
          lp.unapplyMods.col_upper_.getD i 0 = up) ∧
       lp.unapplyMods.integrality_.getD i HighsVarType.kContinuous = t)) ∧
    (∀ (i : Nat) (v : ℚ),
      (i, v) ∈ lp.mods_.save_relaxed_semi_variable_lower_bound_index.zip
        lp.mods_.save_relaxed_semi_variable_lower_bound_value →
      lp.unapplyMods.col_lower_.getD i 0 = v) ∧
    (∀ (i : Nat) (v : ℚ),
      (i, v) ∈ lp.mods_.save_tightened_semi_variable_upper_bound_index.zip
        lp.mods_.save_tightened_semi_variable_upper_bound_value →
      lp.unapplyMods.col_upper_.getD i 0 = v) ∧
    (∀ i ∈ lp.mods_.save_non_semi_variable_index,
      i ∉ lp.mods_.save_inconsistent_semi_variable_index →
      lp.unapplyMods.integrality_.getD i HighsVarType.kContinuous =
        (if lp.integrality_.getD i HighsVarType.kContinuous = HighsVarType.kContinuous
         then HighsVarType.kSemiContinuous else HighsVarType.kSemiInteger)) ∧
    (∀ i : Nat, i ∉ lp.mods_.save_inconsistent_semi_variable_index →
      i ∉ lp.mods_.save_relaxed_semi_variable_lower_bound_index →
      lp.unapplyMods.col_lower_.getD i 0 = lp.col_lower_.getD i 0) ∧
    (∀ i : Nat, i ∉ lp.mods_.save_inconsistent_semi_variable_index →
      i ∉ lp.mods_.save_tightened_semi_variable_upper_bound_index →
      lp.unapplyMods.col_upper_.getD i 0 = lp.col_upper_.getD i 0) ∧
    (∀ i : Nat, i ∉ lp.mods_.save_non_semi_variable_index →
      i ∉ lp.mods_.save_inconsistent_semi_variable_index →
      lp.unapplyMods.integrality_.getD i HighsVarType.kContinuous =
        lp.integrality_.getD i HighsVarType.kContinuous) := by
  have hk2 : (lp.mods_.save_inconsistent_semi_variable_index.zip
      (lp.mods_.save_inconsistent_semi_variable_lower_bound_value.zip
        (lp.mods_.save_inconsistent_semi_variable_upper_bound_value.zip
          lp.mods_.save_inconsistent_semi_variable_type))).map Prod.fst =
      lp.mods_.save_inconsistent_semi_variable_index := by
    refine List.map_fst_zip _ _ ?_
    rw [List.length_zip, List.length_zip, hlen2lo, hlen2up, hlen2t]
    simp
  have hk3 : (lp.mods_.save_relaxed_semi_variable_lower_bound_index.zip
      lp.mods_.save_relaxed_semi_variable_lower_bound_value).map Prod.fst =
      lp.mods_.save_relaxed_semi_variable_lower_bound_index :=
    List.map_fst_zip _ _ (le_of_eq hlen3.symm)
  have hk4 : (lp.mods_.save_tightened_semi_variable_upper_bound_index.zip
      lp.mods_.save_tightened_semi_variable_upper_bound_value).map Prod.fst =
      lp.mods_.save_tightened_semi_variable_upper_bound_index :=
    List.map_fst_zip _ _ (le_of_eq hlen4.symm)
  have hnd2' : ((lp.mods_.save_inconsistent_semi_variable_index.zip
      (lp.mods_.save_inconsistent_semi_variable_lower_bound_value.zip
        (lp.mods_.save_inconsistent_semi_variable_upper_bound_value.zip
          lp.mods_.save_inconsistent_semi_variable_type))).map Prod.fst).Nodup := by
    rw [hk2]; exact hnd2
  have hnd3' : ((lp.mods_.save_relaxed_semi_variable_lower_bound_index.zip
      lp.mods_.save_relaxed_semi_variable_lower_bound_value).map Prod.fst).Nodup := by
    rw [hk3]; exact hnd3
  have hnd4' : ((lp.mods_.save_tightened_semi_variable_upper_bound_index.zip
      lp.mods_.save_tightened_semi_variable_upper_bound_value).map Prod.fst).Nodup := by
    rw [hk4]; exact hnd4
  have elow : lp.unapplyMods.col_lower_ =
      (restorePhases lp.mods_.save_non_semi_variable_index
        (lp.mods_.save_inconsistent_semi_variable_index.zip
          (lp.mods_.save_inconsistent_semi_variable_lower_bound_value.zip
            (lp.mods_.save_inconsistent_semi_variable_upper_bound_value.zip
              lp.mods_.save_inconsistent_semi_variable_type)))
        (lp.mods_.save_relaxed_semi_variable_lower_bound_index.zip
          lp.mods_.save_relaxed_semi_variable_lower_bound_value)
        (lp.mods_.save_tightened_semi_variable_upper_bound_index.zip
          lp.mods_.save_tightened_semi_variable_upper_bound_value) lp).col_lower_ := rfl
  have eup : lp.unapplyMods.col_upper_ =
      (restorePhases lp.mods_.save_non_semi_variable_index
        (lp.mods_.save_inconsistent_semi_variable_index.zip
          (lp.mods_.save_inconsistent_semi_variable_lower_bound_value.zip
            (lp.mods_.save_inconsistent_semi_variable_upper_bound_value.zip
              lp.mods_.save_inconsistent_semi_variable_type)))
        (lp.mods_.save_relaxed_semi_variable_lower_bound_index.zip
          lp.mods_.save_relaxed_semi_variable_lower_bound_value)
        (lp.mods_.save_tightened_semi_variable_upper_bound_index.zip
          lp.mods_.save_tightened_semi_variable_upper_bound_value) lp).col_upper_ := rfl
  have eint : lp.unapplyMods.integrality_ =
      (restorePhases lp.mods_.save_non_semi_variable_index
        (lp.mods_.save_inconsistent_semi_variable_index.zip
          (lp.mods_.save_inconsistent_semi_variable_lower_bound_value.zip
            (lp.mods_.save_inconsistent_semi_variable_upper_bound_value.zip
              lp.mods_.save_inconsistent_semi_variable_type)))
        (lp.mods_.save_relaxed_semi_variable_lower_bound_index.zip
          lp.mods_.save_relaxed_semi_variable_lower_bound_value)
        (lp.mods_.save_tightened_semi_variable_upper_bound_index.zip
          lp.mods_.save_tightened_semi_variable_upper_bound_value) lp).integrality_ := rfl
  refine ⟨⟨rfl, rfl⟩, ?_, ?_, ?_, ?_, ?_, ?_, ?_⟩
  · intro i lo up t hmem
    have hi2 : i ∈ lp.mods_.save_inconsistent_semi_variable_index := by
      rw [← hk2]
      exact List.mem_map.mpr ⟨(i, lo, up, t), hmem, rfl⟩
    have hm := restorePhases_mem2 lp.mods_.save_non_semi_variable_index _
      (lp.mods_.save_relaxed_semi_variable_lower_bound_index.zip
        lp.mods_.save_relaxed_semi_variable_lower_bound_value)
      (lp.mods_.save_tightened_semi_variable_upper_bound_index.zip
        lp.mods_.save_tightened_semi_variable_upper_bound_value)
      lp i lo up t hnd2' hmem
      (by rw [hlo]; exact hr2 i hi2)
      (by rw [hup]; exact hr2 i hi2)
      (by rw [hin]; exact hr2 i hi2)
    refine ⟨fun h3 => ?_, fun h4 => ?_, ?_⟩
    · rw [elow]
      exact hm.1 (by rw [hk3]; exact h3)
    · rw [eup]
      exact hm.2.1 (by rw [hk4]; exact h4)
    · rw [eint]
      exact hm.2.2
  · intro i v hmem
    have hi3 : i ∈ lp.mods_.save_relaxed_semi_variable_lower_bound_index := by
      rw [← hk3]
      exact List.mem_map.mpr ⟨(i, v), hmem, rfl⟩
    rw [elow]
    exact restorePhases_lower_mem3 _ _ _ _ lp i v hnd3' hmem
      (by rw [hlo]; exact hr3 i hi3)
  · intro i v hmem
    have hi4 : i ∈ lp.mods_.save_tightened_semi_variable_upper_bound_index := by
      rw [← hk4]
      exact List.mem_map.mpr ⟨(i, v), hmem, rfl⟩
    rw [eup]
    exact restorePhases_upper_mem4 _ _ _ _ lp i v hnd4' hmem
      (by rw [hup]; exact hr4 i hi4)
  · intro i hmem hnm2
    rw [eint]
    exact restorePhases_mem1 _ _ _ _ lp i hnd1 hmem (by rw [hk2]; exact hnm2)
      (by rw [hin]; exact hr1 i hmem)
  · intro i hnm2 hnm3
    rw [elow]
    exact restorePhases_lower_frame _ _ _ _ lp i (by rw [hk2]; exact hnm2)
      (by rw [hk3]; exact hnm3)
  · intro i hnm2 hnm4
    rw [eup]
    exact restorePhases_upper_frame _ _ _ _ lp i (by rw [hk2]; exact hnm2)
      (by rw [hk4]; exact hnm4)
  · intro i hnm1 hnm2
    rw [eint]
    exact restorePhases_int_frame _ _ _ _ lp i hnm1 (by rw [hk2]; exact hnm2)

def lpC5 : HighsLp :=
  { lp0 with num_col_ := 4,
             col_cost_ := [0, 0, 0, 0],
             col_lower_ := [0, 1, 2, 3],
             col_upper_ := [10, 11, 12, 13],
             integrality_ := [HighsVarType.kContinuous, HighsVarType.kSemiInteger,
               HighsVarType.kSemiContinuous, HighsVarType.kSemiInteger],
             mods_ := { save_non_semi_variable_index := [0],
                        save_inconsistent_semi_variable_index := [1],
                        save_inconsistent_semi_variable_lower_bound_value := [5],
                        save_inconsistent_semi_variable_upper_bound_value := [6],
                        save_inconsistent_semi_variable_type := [HighsVarType.kSemiInteger],
                        save_relaxed_semi_variable_lower_bound_index := [2],
                        save_relaxed_semi_variable_lower_bound_value := [7],
                        save_tightened_semi_variable_upper_bound_index := [3],
                        save_tightened_semi_variable_upper_bound_value := [8] } }

/-- C5 witness: a model with one entry in each journal log; after
`unapplyMods` the journal is clear and each saved value is in place. -/
theorem unapplyMods_spec_w :
    lpC5.unapplyMods.mods_.isClear = true ∧
    lpC5.unapplyMods.col_lower_.getD 1 0 = 5 ∧
    lpC5.unapplyMods.col_upper_.getD 1 0 = 6 ∧
    lpC5.unapplyMods.integrality_.getD 1 HighsVarType.kContinuous =
      HighsVarType.kSemiInteger ∧
    lpC5.unapplyMods.col_lower_.getD 2 0 = 7 ∧
    lpC5.unapplyMods.col_upper_.getD 3 0 = 8 ∧
    lpC5.unapplyMods.integrality_.getD 0 HighsVarType.kContinuous =
      HighsVarType.kSemiContinuous := by
  have h := unapplyMods_spec lpC5 (by decide) (by decide) (by decide) (by decide)
    (by decide) (by decide) (by decide) (by decide) (by decide) (by decide) (by decide)
    (by decide) (by decide) (by decide) (by decide) (by decide) (by decide)
  refine ⟨h.1.2, ?_, ?_, ?_, ?_, ?_, ?_⟩
  · exact (h.2.1 1 5 6 HighsVarType.kSemiInteger (by decide)).1 (by decide)
  · exact (h.2.1 1 5 6 HighsVarType.kSemiInteger (by decide)).2.1 (by decide)
  · exact (h.2.1 1 5 6 HighsVarType.kSemiInteger (by decide)).2.2
  · exact h.2.2.1 2 7 (by decide)
  · exact h.2.2.2.1 3 8 (by decide)
  · exact (h.2.2.2.2.1 0 (by decide) (by decide)).trans (by decide)
